import Mathlib

/- Shallow embedding of tweet_bot.py: the thread composer (clamp_tweet,
parse_thread_list), the fallback pool loader, the JSON history store
(load_log, save_log, pick_fallback), the poster retry loop (post_thread),
and the run orchestrator (main).  Python strings are modelled as lists of
characters (one element per code point); Python whitespace stripping is
modelled over the ASCII whitespace characters; str.isdigit is modelled as
the ASCII digits.  Randomness (hashtag choice, fallback choice) is passed
in as explicit parameters; the posting backend is an oracle mapping a
segment index and an attempt index to an optional remote id. -/

set_option maxRecDepth 4000

abbrev Str := List Char

/-- Python str.strip default whitespace set, restricted to ASCII. -/
def pyIsSpace (c : Char) : Bool :=
  c == ' ' || c == '\t' || c == '\n' || c == '\r' || c == '\x0b' || c == '\x0c'

/-- Python s.strip(): drop leading and trailing whitespace. -/
def pyStrip (s : Str) : Str :=
  ((s.dropWhile pyIsSpace).reverse.dropWhile pyIsSpace).reverse

/-- Helper for splitlines: accumulates the current line (reversed). -/
def splitlinesGo : Str → Str → List Str
  | [], acc => [acc.reverse]
  | '\r' :: '\n' :: rest, acc => acc.reverse :: splitlinesGo rest []
  | '\r' :: rest, acc => acc.reverse :: splitlinesGo rest []
  | '\n' :: rest, acc => acc.reverse :: splitlinesGo rest []
  | c :: rest, acc => splitlinesGo rest (c :: acc)

/-- Python s.splitlines() over the terminators LF, CR, CRLF.  (The exotic
unicode terminators are not modelled; on empty input or input ending in a
terminator this produces extra empty lines that Python omits, which the
composer filters away anyway.) -/
def splitlines (s : Str) : List Str := splitlinesGo s []

/-- Index of the last occurrence of a character (Python s.rfind on a hit). -/
def rfind (c : Char) : Str → Option Nat
  | [] => none
  | x :: xs =>
    match rfind c xs with
    | some i => some (i + 1)
    | none => if x = c then some 0 else none

/-- Python substring test (the `in` operator on strings). -/
def containsSub (needle hay : Str) : Bool :=
  hay.tails.any (fun t => needle.isPrefixOf t)

def MAX_TWEET_LEN : Nat := 280

def CTA : Str :=
  ("Was this useful? Like, Share & Comment to help others stay safe.").data

/-- Filler segment appended when fewer than 5 lines were produced. -/
def FILLER : Str := ("Cybersecurity awareness matters. Stay safe online.").data

/-- The character set of ln.lstrip in parse_thread_list, Python "12345). -". -/
def TWEET_MARKERS : List Char := ['1', '2', '3', '4', '5', ')', '.', ' ', '-']

def HASHTAG_BUCKETS : List (List Str) :=
  [[("#CyberSecurity").data, ("#InfoSec").data, ("#DataPrivacy").data],
   [("#CyberAwareness").data, ("#SecurityTips").data, ("#OnlineSafety").data],
   [("#Phishing").data, ("#Ransomware").data, ("#Malware").data]]

/-- The two lines of clamp_tweet that back off to the last space:
cut = cut[: cut.rfind(" ")] when " " in cut. -/
def spaceBackoff (cut : Str) : Str :=
  match rfind ' ' cut with
  | some i => cut.take i
  | none => cut

/-- tweet_bot.py clamp_tweet. -/
def clamp_tweet (text : Str) : Str :=
  if text.length ≤ MAX_TWEET_LEN then pyStrip text
  else pyStrip (spaceBackoff (text.take (MAX_TWEET_LEN - 1)) ++ ['…'])

/-- Modelled from the claim wording of C3, which omits the final whitespace
trim applied by the code after appending the ellipsis: truncate to
max_length - 1 characters, back off to the last space if one exists in the
truncated window, append a single ellipsis character. -/
def clampClaimed (text : Str) : Str :=
  if text.length ≤ MAX_TWEET_LEN then pyStrip text
  else
    (if ' ' ∈ text.take (MAX_TWEET_LEN - 1) then
      (text.take (MAX_TWEET_LEN - 1)).take
        ((rfind ' ' (text.take (MAX_TWEET_LEN - 1))).getD 0)
    else text.take (MAX_TWEET_LEN - 1)) ++ ['…']

/-- Amended specification of clamp_tweet, stated from the spec wording plus
the final surrounding-whitespace trim that the code applies to the
ellipsis-terminated result. -/
def clampSpec (text : Str) : Str :=
  if text.length ≤ MAX_TWEET_LEN then pyStrip text
  else
    pyStrip
      ((if ' ' ∈ text.take (MAX_TWEET_LEN - 1) then
        (text.take (MAX_TWEET_LEN - 1)).take
          ((rfind ' ' (text.take (MAX_TWEET_LEN - 1))).getD 0)
      else text.take (MAX_TWEET_LEN - 1)) ++ ['…'])

def joinSpace (tags : List Str) : Str := List.intercalate [' '] tags

/-- The possible outcomes of pick_hashtags: one of the 3 buckets chosen,
2 or 3 distinct tags sampled from it (any order), space-joined. -/
def isHashtagPick (ht : Str) : Prop :=
  ∃ bucket, bucket ∈ HASHTAG_BUCKETS ∧
    ∃ tags : List Str, tags.Nodup ∧ (∀ t, t ∈ tags → t ∈ bucket) ∧
      (tags.length = 2 ∨ tags.length = 3) ∧ ht = joinSpace tags

/-- One loop iteration of parse_thread_list: lstrip the ordinal markers when
the first character is a digit, then clamp.  (Lines reaching this are
non-empty; the default for headD is never used.) -/
def processLine (ln : Str) : Str :=
  clamp_tweet
    (if (ln.headD ' ').isDigit then ln.dropWhile (fun c => TWEET_MARKERS.contains c)
     else ln)

/-- Non-empty trimmed lines of the raw response:
[ln.strip() for ln in raw.strip().splitlines() if ln.strip()]. -/
def linesOf (raw : Str) : List Str :=
  ((splitlines (pyStrip raw)).map pyStrip).filter (fun l => !l.isEmpty)

/-- The list of 5 segments before the last-segment augmentation:
tweets[:5] padded with the filler while shorter than 5. -/
def padded (raw : Str) : List Str :=
  ((linesOf raw).map processLine).take 5 ++
    List.replicate (5 - (((linesOf raw).map processLine).take 5).length) FILLER

/-- The last-segment treatment of parse_thread_list: append the CTA when
missing (re-clamping), then append the hashtag pick when it fits, then
re-clamp. -/
def augmentLast (last : Str) (ht : Str) : Str :=
  let l1 := if containsSub CTA last then last else clamp_tweet (last ++ [' '] ++ CTA)
  let l2 := if l1.length + 1 + ht.length ≤ MAX_TWEET_LEN then l1 ++ [' '] ++ ht else l1
  clamp_tweet l2

/-- tweet_bot.py parse_thread_list, with the random hashtag pick passed in
as the parameter ht. -/
def parse_thread_list (raw : Str) (ht : Str) : List Str :=
  (padded raw).dropLast ++ [augmentLast ((padded raw).getLastD []) ht]

/- JSON values as produced by json.load, and the three observable states of
a JSON file: absent, present but not valid JSON, present with a parsed
value. -/

inductive J where
  | jnull : J
  | jbool : Bool → J
  | jnum : Int → J
  | jstr : Str → J
  | jarr : List J → J
  | jobj : List (Str × J) → J

inductive JFile where
  | missing : JFile
  | unparseable : JFile
  | content : J → JFile

def isJarr : J → Bool
  | .jarr _ => true
  | _ => false

def unarr : J → List J
  | .jarr xs => xs
  | _ => []

/-- The hard-coded default pool returned by load_fallback_threads on any
failure. -/
def DEFAULT_POOL : List (List J) :=
  [[J.jstr (("Cybersecurity awareness matters.").data),
    J.jstr (("Always double-check links before clicking.").data),
    J.jstr (("Enable MFA to protect your accounts.").data),
    J.jstr (("Keep your software updated.").data),
    J.jstr (("Was this useful? Like, Share & Comment to help others stay safe. #CyberAwareness").data)]]

/-- tweet_bot.py load_fallback_threads: requires the parsed document to be a
list whose elements are all lists, else (or on any read/parse failure)
returns the default pool. -/
def load_fallback_threads : JFile → List (List J)
  | .content (J.jarr ts) => if ts.all isJarr then ts.map unarr else DEFAULT_POOL
  | _ => DEFAULT_POOL

/-- Shape predicate matching the accepting branch of load_fallback_threads. -/
def goodPoolFile : JFile → Bool
  | .content (J.jarr ts) => ts.all isJarr
  | _ => false

/-- tweet_bot.py load_log: empty list when the file is absent or fails to
parse, else the parsed document as is. -/
def load_log : JFile → J
  | .missing => J.jarr []
  | .unparseable => J.jarr []
  | .content j => j

/-- tweet_bot.py save_log: load, append, rewrite the whole file.  The append
raises (error) when the loaded document is not a list. -/
def save_log (entry : J) (f : JFile) : Except Unit JFile :=
  match load_log f with
  | .jarr hist => .ok (.content (.jarr (hist ++ [entry])))
  | _ => .error ()

/-- Iterated save_log, for the round-trip property. -/
def saveAll : List J → JFile → Except Unit JFile
  | [], f => .ok f
  | e :: es, f =>
    match save_log e f with
    | .ok f2 => saveAll es f2
    | .error u => .error u

/-- A history record as written by main: time, source, tweets,
first_tweet_id (nullable). -/
structure HistoryRecord where
  time : Str
  source : Str
  tweets : List Str
  first_tweet_id : Option Str

/-- JSON encoding of a history record, field order as in the dict literal
of main. -/
def recordToJ (r : HistoryRecord) : J :=
  J.jobj
    [(("time").data, J.jstr r.time),
     (("source").data, J.jstr r.source),
     (("tweets").data, J.jarr (r.tweets.map J.jstr)),
     (("first_tweet_id").data,
       match r.first_tweet_id with
       | none => J.jnull
       | some i => J.jstr i)]

def encodeHistory (recs : List HistoryRecord) : J := J.jarr (recs.map recordToJ)

def jstrOpt : J → Option Str
  | .jstr s => some s
  | _ => none

/-- Decoder for a stored history record; used to state field preservation. -/
def decodeRecord (j : J) : Option HistoryRecord :=
  match j with
  | .jobj fs =>
    match fs.lookup (("time").data) with
    | some (.jstr t) =>
      match fs.lookup (("source").data) with
      | some (.jstr s) =>
        match fs.lookup (("tweets").data) with
        | some (.jarr tws) =>
          match tws.mapM jstrOpt with
          | some tl =>
            match fs.lookup (("first_tweet_id").data) with
            | some .jnull => some ⟨t, s, tl, none⟩
            | some (.jstr i) => some ⟨t, s, tl, some i⟩
            | _ => none
          | none => none
        | _ => none
      | _ => none
    | _ => none
  | _ => none

def decodeHistory : J → Option (List HistoryRecord)
  | .jarr xs => xs.mapM decodeRecord
  | _ => none

/-- Python h[k] on a JSON object: KeyError (error) when the key is absent or
the value is not an object. -/
def pyGet (j : J) (k : Str) : Except Unit J :=
  match j with
  | .jobj fs =>
    match fs.lookup k with
    | some v => .ok v
    | none => .error ()
  | _ => .error ()

/-- tuple(h["tweets"]) restricted to lists of strings.  (Python tuple()
accepts any sequence; the history records written by this program store the
segments as a list of strings, which is the shape modelled here.) -/
def asStrList : J → Except Unit (List Str)
  | .jarr xs =>
    xs.mapM (fun j =>
      match j with
      | .jstr s => Except.ok s
      | _ => Except.error ())
  | _ => .error ()

/-- The set comprehension of pick_fallback:
{tuple(h["tweets"]) for h in history if h["source"] == "fallback"},
as a list used only for membership tests.  Error order differs from Python
(all failures collapse to the same unit error). -/
def usedTweets : List J → Except Unit (List (List Str))
  | [] => .ok []
  | h :: rest =>
    match pyGet h (("source").data) with
    | .error e => .error e
    | .ok s =>
      match usedTweets rest with
      | .error e => .error e
      | .ok acc =>
        match s with
        | .jstr v =>
          if v = ("fallback").data then
            match pyGet h (("tweets").data) with
            | .error e => .error e
            | .ok tw =>
              match asStrList tw with
              | .error e => .error e
              | .ok t => .ok (t :: acc)
          else .ok acc
        | _ => .ok acc

/-- The fallback-tagged segment sequences of a typed history; the reference
value of usedTweets on an encoded history. -/
def usedOf (recs : List HistoryRecord) : List (List Str) :=
  (recs.filter (fun r => decide (r.source = ("fallback").data))).map HistoryRecord.tweets

/-- random.choice: raises on an empty sequence, else picks an element; the
index parameter abstracts the randomness (every element is reachable). -/
def pyChoice (l : List (List Str)) (idx : Nat) : Except Unit (List Str) :=
  match l with
  | [] => .error ()
  | _ => .ok (l.getD (idx % l.length) [])

/-- tweet_bot.py pick_fallback: reads the history file, collects the
fallback-sourced segment sequences, filters the pool to unused threads, and
chooses from the unused threads when any remain, else from the full pool. -/
def pick_fallbackF (pool : List (List Str)) (histFile : JFile) (idx : Nat) :
    Except Unit (List Str) :=
  match load_log histFile with
  | .jarr hs =>
    match usedTweets hs with
    | .error e => .error e
    | .ok used =>
      let unused := pool.filter (fun t => decide (¬ t ∈ used))
      if unused.isEmpty then pyChoice pool idx else pyChoice unused idx
  | _ => .error ()

/-- First success among the 3 attempts for one segment; none when all 3
attempts fail (the exception is then re-raised).  The oracle maps segment
index and attempt index to the optional created id; the posted text, the
reply parent and the sleeps are abstracted away. -/
def postSeg (oracle : Nat → Nat → Option Str) (i : Nat) : Option Str :=
  match oracle i 0 with
  | some t => some t
  | none =>
    match oracle i 1 with
    | some t => some t
    | none => oracle i 2

/-- The loop of post_thread: state is the segment index, first_id and
parent_id. -/
def post_threadAux (oracle : Nat → Nat → Option Str) :
    List Str → Nat → Option Str → Option Str → Except Unit (Option Str)
  | [], _, firstId, _ => .ok firstId
  | _ :: rest, i, firstId, _ =>
    match postSeg oracle i with
    | none => .error ()
    | some tid =>
      post_threadAux oracle rest (i + 1)
        (match firstId with
         | none => some tid
         | some f => some f)
        (some tid)

/-- tweet_bot.py post_thread. -/
def post_thread (oracle : Nat → Nat → Option Str) (tweets : List Str) :
    Except Unit (Option Str) :=
  post_threadAux oracle tweets 0 none none

/-- The create-post calls issued while retrying one segment. -/
def segCalls (oracle : Nat → Nat → Option Str) (i : Nat) : List (Nat × Nat) :=
  match oracle i 0 with
  | some _ => [(i, 0)]
  | none =>
    match oracle i 1 with
    | some _ => [(i, 0), (i, 1)]
    | none => [(i, 0), (i, 1), (i, 2)]

/-- The create-post calls issued by post_thread, in order. -/
def post_calls (oracle : Nat → Nat → Option Str) : Nat → List Str → List (Nat × Nat)
  | _, [] => []
  | i, _ :: rest =>
    match postSeg oracle i with
    | some _ => segCalls oracle i ++ post_calls oracle (i + 1) rest
    | none => segCalls oracle i

def EVENING : Str := ("0 20 * * *").data

/-- The source-selection part of main: evening sentinel means fallback only;
otherwise the generative result is used when the backend call succeeded, and
any backend failure is downgraded to fallback.  The loaded pool, the random
fallback index, the backend outcome and the random hashtag pick are passed
in. -/
def composeStep (run_mode : Str) (pool : List (List Str)) (histFile : JFile)
    (fbIdx : Nat) (hfResult : Except Unit Str) (ht : Str) :
    Except Unit (List Str × Str) :=
  if run_mode = EVENING then
    match pick_fallbackF pool histFile fbIdx with
    | .ok t => .ok (t, ("fallback").data)
    | .error e => .error e
  else
    match hfResult with
    | .ok raw => .ok (parse_thread_list raw ht, ("ai").data)
    | .error _ =>
      match pick_fallbackF pool histFile fbIdx with
      | .ok t => .ok (t, ("fallback").data)
      | .error e => .error e

/-- The dict literal logged by main. -/
def logEntry (now source : Str) (tweets : List Str) (firstId : Option Str) : J :=
  J.jobj
    [(("time").data, J.jstr (now ++ ("Z").data)),
     (("source").data, J.jstr source),
     (("tweets").data, J.jarr (tweets.map J.jstr)),
     (("first_tweet_id").data,
       match firstId with
       | none => J.jnull
       | some i => J.jstr i)]

/-- tweet_bot.py main (renamed mainRun: Lean reserves the name main for
executables): select source, compose, post, append the history record.
Returns the run outcome, the final history file state, and whether save_log
was invoked.  Any uncaught exception (error) leaves the history file at its
initial state. -/
def mainRun (run_mode : Str) (pool : List (List Str)) (histFile : JFile)
    (fbIdx : Nat) (hfResult : Except Unit Str) (ht : Str)
    (oracle : Nat → Nat → Option Str) (now : Str) :
    Except Unit (Option Str) × JFile × Bool :=
  match composeStep (pyStrip run_mode) pool histFile fbIdx hfResult ht with
  | .error e => (.error e, histFile, false)
  | .ok (tweets, source) =>
    match post_thread oracle tweets with
    | .error e => (.error e, histFile, false)
    | .ok firstId =>
      match save_log (logEntry now source tweets firstId) histFile with
      | .error e => (.error e, histFile, true)
      | .ok f2 => (.ok firstId, f2, true)

/- Lemmas about the length clamp. -/

lemma pyStrip_length_le (s : Str) : (pyStrip s).length ≤ s.length := by
  unfold pyStrip
  calc (((s.dropWhile pyIsSpace).reverse.dropWhile pyIsSpace).reverse).length
      = ((s.dropWhile pyIsSpace).reverse.dropWhile pyIsSpace).length := by
        simp
    _ ≤ (s.dropWhile pyIsSpace).reverse.length :=
        (List.dropWhile_sublist pyIsSpace).length_le
    _ = (s.dropWhile pyIsSpace).length := by simp
    _ ≤ s.length := (List.dropWhile_sublist pyIsSpace).length_le

lemma rfind_eq_none (c : Char) : ∀ l : Str, rfind c l = none ↔ ¬ c ∈ l
  | [] => by simp [rfind]
  | x :: xs => by
    simp only [rfind]
    cases h : rfind c xs with
    | some i =>
      have hm : c ∈ xs := by
        by_contra hm
        exact absurd ((rfind_eq_none c xs).mpr hm) (by simp [h])
      simp [hm]
    | none =>
      by_cases hx : x = c
      · simp [hx]
      · simp [hx, (rfind_eq_none c xs).mp h, Ne.symm hx]

lemma spaceBackoff_spec (w : Str) :
    spaceBackoff w = if ' ' ∈ w then w.take ((rfind ' ' w).getD 0) else w := by
  unfold spaceBackoff
  cases h : rfind ' ' w with
  | some i =>
    have hm : ' ' ∈ w := by
      by_contra hm
      exact absurd ((rfind_eq_none ' ' w).mpr hm) (by simp [h])
    simp [hm]
  | none =>
    simp [(rfind_eq_none ' ' w).mp h]

lemma clamp_eq_clampSpec (t : Str) : clamp_tweet t = clampSpec t := by
  unfold clamp_tweet clampSpec
  by_cases h : t.length ≤ MAX_TWEET_LEN
  · simp [h]
  · simp [h, spaceBackoff_spec]

lemma spaceBackoff_length_le (w : Str) : (spaceBackoff w).length ≤ w.length := by
  unfold spaceBackoff
  cases rfind ' ' w with
  | some i => simp [List.length_take]
  | none => exact le_refl _

lemma clamp_tweet_length_le (t : Str) : (clamp_tweet t).length ≤ MAX_TWEET_LEN := by
  unfold clamp_tweet
  by_cases h : t.length ≤ MAX_TWEET_LEN
  · simp only [if_pos h]
    exact le_trans (pyStrip_length_le t) h
  · simp only [if_neg h]
    calc (pyStrip (spaceBackoff (t.take (MAX_TWEET_LEN - 1)) ++ ['…'])).length
        ≤ (spaceBackoff (t.take (MAX_TWEET_LEN - 1)) ++ ['…']).length :=
          pyStrip_length_le _
      _ = (spaceBackoff (t.take (MAX_TWEET_LEN - 1))).length + 1 := by simp
      _ ≤ (t.take (MAX_TWEET_LEN - 1)).length + 1 :=
          Nat.add_le_add_right (spaceBackoff_length_le _) 1
      _ ≤ (MAX_TWEET_LEN - 1) + 1 := by
          have := List.length_take_le (MAX_TWEET_LEN - 1) t
          omega
      _ ≤ MAX_TWEET_LEN := by norm_num [MAX_TWEET_LEN]

/-- C3 counterexample: on an input of 281 spaces the code returns the single
ellipsis character (the trailing whitespace is stripped after the ellipsis
is appended), while the claim as stated predicts 278 spaces followed by the
ellipsis. -/
theorem clamp_claimed_counterexample :
    clamp_tweet (List.replicate 281 ' ') = ['…'] ∧
    clampClaimed (List.replicate 281 ' ') = List.replicate 278 ' ' ++ ['…'] ∧
    clamp_tweet (List.replicate 281 ' ') ≠ clampClaimed (List.replicate 281 ' ') := by
  refine ⟨by decide, by decide, by decide⟩

/-- C3 (amended): for every input, clamp_tweet returns at most 280
characters; an input of length at most 280 is returned trimmed of
surrounding whitespace, and a longer input is truncated to max_length - 1
characters, backed off to the last space when one exists in the truncated
window, a single ellipsis character is appended, and the result is trimmed
of surrounding whitespace. -/
theorem clamp_tweet_corrected :
    ∀ t : Str, clamp_tweet t = clampSpec t ∧ (clamp_tweet t).length ≤ MAX_TWEET_LEN :=
  fun t => ⟨clamp_eq_clampSpec t, clamp_tweet_length_le t⟩

/- Lemmas about the composed 5-segment list. -/

lemma padded_length (raw : Str) : (padded raw).length = 5 := by
  unfold padded
  simp only [List.length_append, List.length_replicate, List.length_take]
  omega

lemma parse_length (raw ht : Str) : (parse_thread_list raw ht).length = 5 := by
  unfold parse_thread_list
  simp [List.length_dropLast, padded_length]

lemma mem_padded (raw : Str) (s : Str) (h : s ∈ padded raw) :
    (∃ t, s = clamp_tweet t) ∨ s = FILLER := by
  unfold padded at h
  rcases List.mem_append.mp h with h | h
  · obtain ⟨ln, _, hln⟩ := List.mem_map.mp (List.mem_of_mem_take h)
    exact Or.inl ⟨_, by rw [← hln]; rfl⟩
  · exact Or.inr (List.eq_of_mem_replicate h)

lemma mem_padded_length_le (raw : Str) : ∀ s ∈ padded raw, s.length ≤ MAX_TWEET_LEN := by
  intro s hs
  rcases mem_padded raw s hs with ⟨t, rfl⟩ | rfl
  · exact clamp_tweet_length_le t
  · decide

lemma getLastD_mem {α : Type} : ∀ (l : List α) (d : α), l ≠ [] → l.getLastD d ∈ l
  | [], _, h => absurd rfl h
  | a :: l, d, _ => by
    rw [List.getLastD_cons]
    cases l with
    | nil => simp [List.getLastD_nil]
    | cons b m => exact List.mem_cons_of_mem a (getLastD_mem (b :: m) a (by simp))

lemma padded_ne_nil (raw : Str) : padded raw ≠ [] := by
  intro h
  have h5 := padded_length raw
  rw [h] at h5
  simp at h5

lemma last0_length_le (raw : Str) : ((padded raw).getLastD []).length ≤ MAX_TWEET_LEN :=
  mem_padded_length_le raw _ (getLastD_mem _ _ (padded_ne_nil raw))

lemma parse_getD_lt (raw ht : Str) (i : Nat) (h4 : i < 4) (hL : i < (linesOf raw).length) :
    (parse_thread_list raw ht).getD i [] = processLine ((linesOf raw).getD i []) := by
  have h5 := padded_length raw
  unfold parse_thread_list
  rw [List.getD_eq_getElem?_getD,
    List.getElem?_append_left (by simp only [List.length_dropLast, h5]; omega),
    List.getElem?_dropLast, if_pos (by rw [h5]; omega)]
  unfold padded
  rw [List.getElem?_append_left
      (by simp only [List.length_take, List.length_map]; omega),
    List.getElem?_take_of_lt (by omega), List.getElem?_map,
    List.getElem?_eq_getElem hL]
  simp [List.getD_eq_getElem?_getD, List.getElem?_eq_getElem hL]

/-- C1: for every raw generated-text input and every hashtag outcome,
parse_thread_list returns exactly 5 segments, each of length at most 280,
and input positions beyond the available non-empty lines (among the first
four positions) are the fixed filler segment. -/
theorem parse_five_segments : ∀ raw ht : Str,
    (parse_thread_list raw ht).length = 5 ∧
    (∀ s, s ∈ parse_thread_list raw ht → s.length ≤ MAX_TWEET_LEN) ∧
    (∀ i, (linesOf raw).length ≤ i → i < 4 →
      (parse_thread_list raw ht).getD i [] = FILLER) := by
  intro raw ht
  refine ⟨parse_length raw ht, ?_, ?_⟩
  · intro s hs
    unfold parse_thread_list at hs
    rcases List.mem_append.mp hs with h | h
    · exact mem_padded_length_le raw s ((List.dropLast_sublist _).subset h)
    · have hs2 : s = augmentLast ((padded raw).getLastD []) ht := by
        simpa using h
      rw [hs2]
      exact clamp_tweet_length_le _
  · intro i hLi hi4
    have h5 := padded_length raw
    unfold parse_thread_list
    rw [List.getD_eq_getElem?_getD,
      List.getElem?_append_left (by simp only [List.length_dropLast, h5]; omega),
      List.getElem?_dropLast, if_pos (by rw [h5]; omega)]
    unfold padded
    have hTake : (((linesOf raw).map processLine).take 5).length ≤ i := by
      simp only [List.length_take, List.length_map]
      omega
    rw [List.getElem?_append_right hTake, List.getElem?_replicate_of_lt
      (by simp only [List.length_take, List.length_map]; omega)]
    rfl

/-- C1 witness: a two-line input yields 5 segments, the filler is within the
length bound, and position 2 is the filler. -/
theorem parse_five_segments_witness :
    (parse_thread_list (("one\ntwo").data) (("#X").data)).length = 5 ∧
    FILLER.length ≤ MAX_TWEET_LEN ∧
    (parse_thread_list (("one\ntwo").data) (("#X").data)).getD 2 [] = FILLER :=
  ⟨(parse_five_segments (("one\ntwo").data) (("#X").data)).1,
   (parse_five_segments (("one\ntwo").data) (("#X").data)).2.1 FILLER (by decide),
   (parse_five_segments (("one\ntwo").data) (("#X").data)).2.2 2 (by decide) (by decide)⟩

/-- C6 counterexample: the line starting with a dash is not marker-stripped
by the code (the lstrip only runs when the first character is a digit),
while the claim predicts the leading dash and space are removed. -/
theorem parse_digit_strip_counterexample :
    (parse_thread_list (("- hello\nb\nc\nd\ne").data) (("#X").data)).getD 0 [] ≠
      clamp_tweet (((linesOf (("- hello\nb\nc\nd\ne").data)).getD 0 []).dropWhile
        (fun c => TWEET_MARKERS.contains c)) := by
  decide

/-- C6 (amended): each of the first four composed segments is the clamp of
its line, where the leading run of the characters 1-5, parenthesis, dot,
space, dash is stripped exactly when the line begins with a decimal digit;
other lines are clamped unchanged. -/
theorem parse_digit_strip : ∀ (raw ht : Str) (i : Nat), i < 4 → i < (linesOf raw).length →
    (parse_thread_list raw ht).getD i [] =
      clamp_tweet (if (((linesOf raw).getD i []).headD ' ').isDigit
        then ((linesOf raw).getD i []).dropWhile (fun c => TWEET_MARKERS.contains c)
        else (linesOf raw).getD i []) := by
  intro raw ht i h4 hL
  rw [parse_getD_lt raw ht i h4 hL]
  rfl

/-- C6 witness: on a digit-led first line the marker run is stripped. -/
theorem parse_digit_strip_witness :
    (parse_thread_list (("1. tip\n- x\nc\nd\ne").data) (("#X").data)).getD 0 [] =
      clamp_tweet (if (((linesOf (("1. tip\n- x\nc\nd\ne").data)).getD 0 []).headD ' ').isDigit
        then ((linesOf (("1. tip\n- x\nc\nd\ne").data)).getD 0 []).dropWhile
          (fun c => TWEET_MARKERS.contains c)
        else (linesOf (("1. tip\n- x\nc\nd\ne").data)).getD 0 []) :=
  parse_digit_strip (("1. tip\n- x\nc\nd\ne").data) (("#X").data) 0 (by decide) (by decide)

/- Lemmas about the JSON history store. -/

lemma mapM_jstrOpt : ∀ l : List Str, (l.map J.jstr).mapM jstrOpt = some l
  | [] => rfl
  | x :: xs => by
    simp only [List.map_cons, List.mapM_cons, mapM_jstrOpt xs]
    rfl

lemma decodeRecord_roundtrip (r : HistoryRecord) : decodeRecord (recordToJ r) = some r := by
  obtain ⟨t, s, tw, fid⟩ := r
  have h1 : (tw.map J.jstr).mapM jstrOpt = some tw := mapM_jstrOpt tw
  cases fid with
  | none =>
    show (match (tw.map J.jstr).mapM jstrOpt with
          | some tl => some (⟨t, s, tl, none⟩ : HistoryRecord)
          | none => none) = some ⟨t, s, tw, none⟩
    rw [h1]
  | some i =>
    show (match (tw.map J.jstr).mapM jstrOpt with
          | some tl => some (⟨t, s, tl, some i⟩ : HistoryRecord)
          | none => none) = some ⟨t, s, tw, some i⟩
    rw [h1]

lemma mapM_decode : ∀ recs : List HistoryRecord,
    (recs.map recordToJ).mapM decodeRecord = some recs
  | [] => rfl
  | r :: rs => by
    simp only [List.map_cons, List.mapM_cons, decodeRecord_roundtrip r, mapM_decode rs]
    rfl

lemma decode_encode (recs : List HistoryRecord) :
    decodeHistory (encodeHistory recs) = some recs :=
  mapM_decode recs

lemma saveAll_jarr : ∀ (es xs : List J),
    saveAll es (.content (.jarr xs)) = .ok (.content (.jarr (xs ++ es)))
  | [], xs => by simp [saveAll]
  | e :: es, xs => by
    show saveAll es (.content (.jarr (xs ++ [e]))) = _
    rw [saveAll_jarr es (xs ++ [e])]
    simp

/-- C7: load_fallback_threads never raises (it is a total function): when
the file parses to a sequence whose elements are all sequences that value is
returned unchanged (element-level string-ness is not validated), and in
every other file state it returns the single-element pool holding the
hard-coded 5-segment default thread. -/
theorem load_fallback_total :
    (∀ ts : List J, (∀ t, t ∈ ts → isJarr t = true) →
      load_fallback_threads (.content (J.jarr ts)) = ts.map unarr) ∧
    (∀ f : JFile, goodPoolFile f = false → load_fallback_threads f = DEFAULT_POOL) ∧
    DEFAULT_POOL.length = 1 ∧ (DEFAULT_POOL.getD 0 []).length = 5 := by
  refine ⟨?_, ?_, rfl, rfl⟩
  · intro ts h
    show (if ts.all isJarr = true then List.map unarr ts else DEFAULT_POOL) =
      List.map unarr ts
    rw [if_pos (List.all_eq_true.mpr h)]
  · intro f hf
    match f with
    | .missing => rfl
    | .unparseable => rfl
    | .content .jnull => rfl
    | .content (.jbool b) => rfl
    | .content (.jnum n) => rfl
    | .content (.jstr s) => rfl
    | .content (.jobj fs) => rfl
    | .content (.jarr ts) =>
      have hf2 : ts.all isJarr = false := hf
      show (if ts.all isJarr = true then List.map unarr ts else DEFAULT_POOL) =
        DEFAULT_POOL
      rw [hf2]
      simp

/-- C7 witness: a well-shaped file is returned unchanged and a missing file
gives the default pool. -/
theorem load_fallback_total_witness :
    load_fallback_threads (.content (J.jarr [J.jarr [J.jstr (("a").data)]])) =
      [[J.jstr (("a").data)]] ∧
    load_fallback_threads .missing = DEFAULT_POOL := by
  constructor
  · have h := load_fallback_total.1 [J.jarr [J.jstr (("a").data)]]
      (by intro t htm; rw [List.mem_singleton.mp htm]; rfl)
    rw [h]
    rfl
  · exact load_fallback_total.2.1 JFile.missing rfl

/-- C8: load_log never raises: the empty sequence is returned when the
history file is missing or unparseable, and a stored record sequence is
returned as stored, with every field decodable back unchanged. -/
theorem load_log_total :
    load_log .missing = J.jarr [] ∧ load_log .unparseable = J.jarr [] ∧
    ∀ recs : List HistoryRecord,
      load_log (.content (encodeHistory recs)) = encodeHistory recs ∧
      decodeHistory (encodeHistory recs) = some recs :=
  ⟨rfl, rfl, fun recs => ⟨rfl, decode_encode recs⟩⟩

/-- C9: appending N records through save_log starting from a well-formed
history file and then loading returns the prior records followed by the
appended records in order, with all fields (timestamp, source tag, the 5
segments, nullable first-post id) preserved. -/
theorem history_roundtrip : ∀ recs0 new : List HistoryRecord,
    saveAll (new.map recordToJ) (.content (encodeHistory recs0)) =
      .ok (.content (encodeHistory (recs0 ++ new))) ∧
    decodeHistory (load_log (.content (encodeHistory (recs0 ++ new)))) =
      some (recs0 ++ new) := by
  intro recs0 new
  constructor
  · have h := saveAll_jarr (new.map recordToJ) (recs0.map recordToJ)
    simp only [encodeHistory, List.map_append]
    exact h
  · exact decode_encode (recs0 ++ new)

/- Lemmas about pick_fallback over encoded histories. -/

lemma mapM_ok : ∀ l : List Str,
    (l.map J.jstr).mapM (fun j =>
      match j with
      | J.jstr s => Except.ok s
      | _ => Except.error ()) = (Except.ok l : Except Unit (List Str))
  | [] => rfl
  | x :: xs => by
    simp only [List.map_cons, List.mapM_cons, mapM_ok xs]
    rfl

lemma asStrList_enc (l : List Str) : asStrList (J.jarr (l.map J.jstr)) = .ok l :=
  mapM_ok l

lemma usedTweets_encode : ∀ recs : List HistoryRecord,
    usedTweets (recs.map recordToJ) = .ok (usedOf recs)
  | [] => rfl
  | r :: rs => by
    have ih := usedTweets_encode rs
    show (match usedTweets (rs.map recordToJ) with
          | Except.error e => Except.error e
          | Except.ok acc =>
            if r.source = ("fallback").data then
              match asStrList (J.jarr (r.tweets.map J.jstr)) with
              | Except.error e => Except.error e
              | Except.ok t => Except.ok (t :: acc)
            else Except.ok acc) = Except.ok (usedOf (r :: rs))
    rw [ih]
    by_cases hs : r.source = ("fallback").data <;>
      simp [hs, asStrList_enc, usedOf]

lemma getD_mem {α : Type} : ∀ (l : List α) (j : Nat) (d : α), j < l.length → l.getD j d ∈ l
  | [], _, _, h => absurd h (by simp)
  | a :: l, 0, d, _ => by simp
  | a :: l, j + 1, d, h => by
    rw [List.getD_cons_succ]
    exact List.mem_cons_of_mem a (getD_mem l j d (by simpa using h))

lemma pyChoice_mem (l : List (List Str)) (idx : Nat) (h : l ≠ []) :
    ∃ t, pyChoice l idx = .ok t ∧ t ∈ l := by
  match l with
  | [] => exact absurd rfl h
  | a :: m =>
    exact ⟨(a :: m).getD (idx % (a :: m).length) [], rfl,
      getD_mem _ _ _ (Nat.mod_lt _ (by simp))⟩

/-- C4: over a non-empty pool and a history of well-formed records,
pick_fallback succeeds and returns a pool member; whenever some pool thread
does not occur among the fallback-tagged history records, the returned
thread is such an unused one. -/
theorem pick_fallback_unused : ∀ (pool : List (List Str)) (recs : List HistoryRecord)
    (idx : Nat), pool ≠ [] →
    ∃ t, pick_fallbackF pool (.content (encodeHistory recs)) idx = .ok t ∧ t ∈ pool ∧
      ((∃ u, u ∈ pool ∧ ¬ u ∈ usedOf recs) → ¬ t ∈ usedOf recs) := by
  intro pool recs idx hpool
  have hred : pick_fallbackF pool (.content (encodeHistory recs)) idx =
      (match usedTweets (recs.map recordToJ) with
       | .error e => .error e
       | .ok used =>
         if (pool.filter (fun t => decide (¬ t ∈ used))).isEmpty then pyChoice pool idx
         else pyChoice (pool.filter (fun t => decide (¬ t ∈ used))) idx) := rfl
  by_cases hemp : (pool.filter (fun t => decide (¬ t ∈ usedOf recs))).isEmpty
  · obtain ⟨t, hch, hm⟩ := pyChoice_mem pool idx hpool
    refine ⟨t, ?_, hm, ?_⟩
    · rw [hred, usedTweets_encode recs]
      show (if (pool.filter (fun t => decide (¬ t ∈ usedOf recs))).isEmpty then
          pyChoice pool idx
        else pyChoice (pool.filter (fun t => decide (¬ t ∈ usedOf recs))) idx) =
        Except.ok t
      rw [if_pos hemp, hch]
    · rintro ⟨u, hup, hun⟩
      exfalso
      have hmem : u ∈ pool.filter (fun t => decide (¬ t ∈ usedOf recs)) :=
        List.mem_filter.mpr ⟨hup, decide_eq_true hun⟩
      rw [List.isEmpty_iff.mp hemp] at hmem
      simp at hmem
  · have hne : pool.filter (fun t => decide (¬ t ∈ usedOf recs)) ≠ [] := by
      intro hnil
      rw [hnil] at hemp
      exact hemp rfl
    obtain ⟨t, hch, hm⟩ := pyChoice_mem _ idx hne
    have hmf := List.mem_filter.mp hm
    refine ⟨t, ?_, hmf.1, fun _ => of_decide_eq_true hmf.2⟩
    rw [hred, usedTweets_encode recs]
    show (if (pool.filter (fun t => decide (¬ t ∈ usedOf recs))).isEmpty then
        pyChoice pool idx
      else pyChoice (pool.filter (fun t => decide (¬ t ∈ usedOf recs))) idx) =
      Except.ok t
    rw [if_neg hemp, hch]

/-- C4 witness: singleton pool, empty history. -/
theorem pick_fallback_unused_witness :
    ∃ t, pick_fallbackF [[("a").data]] (.content (encodeHistory [])) 0 = .ok t ∧
      t ∈ [[("a").data]] ∧
      ((∃ u, u ∈ [[("a").data]] ∧ ¬ u ∈ usedOf []) → ¬ t ∈ usedOf []) :=
  pick_fallback_unused [[("a").data]] [] 0 (by decide)

/- Lemmas about the poster and the orchestrator. -/

lemma post_threadAux_some :
    ∀ (oracle : Nat → Nat → Option Str) (l : List Str) (i : Nat) (fid : Str)
      (pid : Option Str) (r : Option Str),
      post_threadAux oracle l i (some fid) pid = .ok r → ∃ j, r = some j
  | oracle, [], i, fid, pid, r, h => by
    have h2 : (Except.ok (some fid) : Except Unit (Option Str)) = .ok r := h
    injection h2 with h3
    exact ⟨fid, h3.symm⟩
  | oracle, t :: rest, i, fid, pid, r, h => by
    rw [show post_threadAux oracle (t :: rest) i (some fid) pid =
        (match postSeg oracle i with
         | none => Except.error ()
         | some tid => post_threadAux oracle rest (i + 1) (some fid) (some tid)) from rfl]
      at h
    cases hseg : postSeg oracle i with
    | none =>
      rw [hseg] at h
      exact Except.noConfusion h
    | some tid =>
      rw [hseg] at h
      exact post_threadAux_some oracle rest (i + 1) fid (some tid) r h

/-- C10: post_thread on an empty segment sequence issues no posting calls
and returns the ok outcome carrying no remote id (none); a non-empty
sequence that completes without error always yields some remote id. -/
theorem post_thread_empty_none : ∀ oracle : Nat → Nat → Option Str,
    (post_thread oracle [] = .ok none ∧ post_calls oracle 0 [] = []) ∧
    ∀ (tweets : List Str) (r : Option Str), tweets ≠ [] →
      post_thread oracle tweets = .ok r → ∃ i, r = some i := by
  intro oracle
  refine ⟨⟨rfl, rfl⟩, ?_⟩
  intro tweets r hne hok
  cases tweets with
  | nil => exact absurd rfl hne
  | cons t rest =>
    rw [show post_thread oracle (t :: rest) =
        (match postSeg oracle 0 with
         | none => Except.error ()
         | some tid => post_threadAux oracle rest 1 (some tid) (some tid)) from rfl]
      at hok
    cases hseg : postSeg oracle 0 with
    | none =>
      rw [hseg] at hok
      exact Except.noConfusion hok
    | some tid =>
      rw [hseg] at hok
      exact post_threadAux_some oracle rest 1 tid (some tid) r hok

/-- C10 witness: a one-segment thread with a succeeding backend yields an
id, and the empty-thread clause is instantiated inside the theorem. -/
theorem post_thread_empty_none_witness :
    ∃ i, (some (("1").data) : Option Str) = some i :=
  (post_thread_empty_none (fun _ _ => some (("1").data))).2 [("a").data]
    (some (("1").data)) (by decide) rfl

/-- C5: whenever the composition step succeeds but post_thread fails (some
segment failed all 3 attempts), the run terminates with the error, save_log
is never invoked, and the history file is unchanged. -/
theorem main_no_log_on_post_failure : ∀ (rm : Str) (pool : List (List Str))
    (histFile : JFile) (fbIdx : Nat) (hf : Except Unit Str) (ht : Str)
    (oracle : Nat → Nat → Option Str) (now : Str) (tweets : List Str) (source : Str),
    composeStep (pyStrip rm) pool histFile fbIdx hf ht = .ok (tweets, source) →
    post_thread oracle tweets = .error () →
    mainRun rm pool histFile fbIdx hf ht oracle now = (.error (), histFile, false) := by
  intro rm pool histFile fbIdx hf ht oracle now tweets source h1 h2
  simp [mainRun, h1, h2]

/-- C5 witness: evening run, pool thread of two segments, first posting call
succeeds and the second segment fails all attempts; the history file stays
at its initial state and save_log is not invoked. -/
theorem main_no_log_on_post_failure_witness :
    mainRun (("0 20 * * *").data) [[("a").data, ("b").data]] (.content (J.jarr [])) 0
      (Except.error ()) (("#X").data)
      (fun i _ => if i == 0 then some (("1").data) else none) (("t").data) =
      (.error (), .content (J.jarr []), false) :=
  main_no_log_on_post_failure (("0 20 * * *").data) [[("a").data, ("b").data]]
    (.content (J.jarr [])) 0 (Except.error ()) (("#X").data)
    (fun i _ => if i == 0 then some (("1").data) else none) (("t").data)
    [("a").data, ("b").data] (("fallback").data) rfl rfl

/- Lemmas about substring containment and whitespace stripping, used for the
CTA preservation property of the last segment. -/

lemma prefixOf_true_iff : ∀ (n t : Str), n.isPrefixOf t = true ↔ n <+: t
  | [], t => by simp [List.isPrefixOf]
  | a :: n, [] => by simp [List.isPrefixOf]
  | a :: n, b :: t => by
    simp only [List.isPrefixOf, Bool.and_eq_true, beq_iff_eq, prefixOf_true_iff n t]
    constructor
    · rintro ⟨rfl, r, rfl⟩
      exact ⟨r, rfl⟩
    · rintro ⟨r, hr⟩
      injection hr with h1 h2
      exact ⟨h1, r, h2⟩

lemma containsSub_iff (n l : Str) : containsSub n l = true ↔ n <:+: l := by
  unfold containsSub
  rw [List.any_eq_true]
  constructor
  · rintro ⟨t, htm, hp⟩
    obtain ⟨r, rfl⟩ := (prefixOf_true_iff n t).mp hp
    obtain ⟨s, rfl⟩ := (List.mem_tails _ _).mp htm
    exact ⟨s, r, by simp⟩
  · rintro ⟨s, r, rfl⟩
    refine ⟨n ++ r, (List.mem_tails _ _).mpr ⟨s, by simp⟩, ?_⟩
    exact (prefixOf_true_iff _ _).mpr ⟨r, rfl⟩

lemma infix_app_right (n l m : Str) (h : n <:+: l) : n <:+: l ++ m := by
  obtain ⟨s, t, rfl⟩ := h
  exact ⟨s, t ++ m, by simp⟩

lemma infix_rev (n l : Str) (h : n <:+: l) : n.reverse <:+: l.reverse := by
  obtain ⟨s, t, rfl⟩ := h
  exact ⟨t.reverse, s.reverse, by simp⟩

lemma infix_dropWhile_head (c : Char) (m t l1 : Str) (hc : pyIsSpace c = false) :
    ∀ s : Str, s ++ (c :: m) ++ t = l1 → (c :: m) <:+: l1.dropWhile pyIsSpace := by
  intro s
  induction s generalizing l1 with
  | nil =>
    rintro rfl
    have hd : ([] ++ (c :: m) ++ t).dropWhile pyIsSpace = (c :: m) ++ t := by
      simp [List.dropWhile_cons, hc]
    rw [hd]
    exact ⟨[], t, by simp⟩
  | cons x s ih =>
    rintro rfl
    by_cases hx : pyIsSpace x = true
    · have hd : ((x :: s) ++ (c :: m) ++ t).dropWhile pyIsSpace =
          (s ++ (c :: m) ++ t).dropWhile pyIsSpace := by
        simp [List.dropWhile_cons, hx]
      rw [hd]
      exact ih _ rfl
    · have hxf : pyIsSpace x = false := by
        cases hxx : pyIsSpace x
        · rfl
        · exact absurd hxx hx
      have hd : ((x :: s) ++ (c :: m) ++ t).dropWhile pyIsSpace =
          (x :: s) ++ (c :: m) ++ t := by
        simp [List.dropWhile_cons, hxf]
      rw [hd]
      exact ⟨x :: s, t, rfl⟩

lemma infix_dropWhile (c : Char) (m l : Str) (hc : pyIsSpace c = false)
    (h : (c :: m) <:+: l) : (c :: m) <:+: l.dropWhile pyIsSpace := by
  obtain ⟨s, t, hst⟩ := h
  exact infix_dropWhile_head c m t l hc s hst

lemma cta_strip (l : Str) (h : containsSub CTA l = true) :
    containsSub CTA (pyStrip l) = true := by
  rw [containsSub_iff] at h ⊢
  have h1 : CTA <:+: l.dropWhile pyIsSpace := by
    have hc : CTA = 'W' :: CTA.tail := rfl
    rw [hc] at h ⊢
    exact infix_dropWhile 'W' CTA.tail l rfl h
  have h2 : CTA.reverse <:+: (l.dropWhile pyIsSpace).reverse := infix_rev _ _ h1
  have h3 : CTA.reverse <:+: ((l.dropWhile pyIsSpace).reverse).dropWhile pyIsSpace := by
    have hc : CTA.reverse = '.' :: CTA.reverse.tail := rfl
    rw [hc] at h2 ⊢
    exact infix_dropWhile '.' CTA.reverse.tail _ rfl h2
  have h4 := infix_rev _ _ h3
  rw [List.reverse_reverse] at h4
  exact h4

lemma clamp_of_le (l : Str) (h : l.length ≤ MAX_TWEET_LEN) : clamp_tweet l = pyStrip l := by
  unfold clamp_tweet
  rw [if_pos h]

lemma augmentLast_eq (last ht : Str) :
    augmentLast last ht =
      clamp_tweet
        (if (if containsSub CTA last then last
             else clamp_tweet (last ++ [' '] ++ CTA)).length + 1 + ht.length ≤
            MAX_TWEET_LEN
         then (if containsSub CTA last then last
               else clamp_tweet (last ++ [' '] ++ CTA)) ++ [' '] ++ ht
         else (if containsSub CTA last then last
               else clamp_tweet (last ++ [' '] ++ CTA))) := rfl

lemma augmentLast_cta (last ht : Str) (hb : last.length ≤ MAX_TWEET_LEN) :
    containsSub CTA (augmentLast last ht) = true ∨
    MAX_TWEET_LEN < last.length + 1 + CTA.length := by
  by_cases hc : containsSub CTA last = true
  · left
    have hl1 : (if containsSub CTA last then last
        else clamp_tweet (last ++ [' '] ++ CTA)) = last := if_pos hc
    rw [augmentLast_eq, hl1]
    by_cases hht : last.length + 1 + ht.length ≤ MAX_TWEET_LEN
    · rw [if_pos hht, clamp_of_le _ (by simp only [List.length_append, List.length_cons, List.length_nil]; omega)]
      apply cta_strip
      rw [containsSub_iff] at hc ⊢
      exact infix_app_right _ _ _ (infix_app_right _ _ _ hc)
    · rw [if_neg hht, clamp_of_le _ hb]
      exact cta_strip _ hc
  · by_cases hfit : last.length + 1 + CTA.length ≤ MAX_TWEET_LEN
    · left
      have hl1 : (if containsSub CTA last then last
          else clamp_tweet (last ++ [' '] ++ CTA)) = clamp_tweet (last ++ [' '] ++ CTA) :=
        if_neg hc
      have hlen1 : (last ++ [' '] ++ CTA).length ≤ MAX_TWEET_LEN := by
        simp only [List.length_append, List.length_cons, List.length_nil]
        omega
      have hcta1 : containsSub CTA (clamp_tweet (last ++ [' '] ++ CTA)) = true := by
        rw [clamp_of_le _ hlen1]
        apply cta_strip
        rw [containsSub_iff]
        exact ⟨last ++ [' '], [], by simp⟩
      have hb1 : (clamp_tweet (last ++ [' '] ++ CTA)).length ≤ MAX_TWEET_LEN :=
        clamp_tweet_length_le _
      rw [augmentLast_eq, hl1]
      by_cases hht : (clamp_tweet (last ++ [' '] ++ CTA)).length + 1 + ht.length ≤
          MAX_TWEET_LEN
      · rw [if_pos hht, clamp_of_le _ (by simp only [List.length_append, List.length_cons, List.length_nil]; omega)]
        apply cta_strip
        rw [containsSub_iff] at hcta1 ⊢
        exact infix_app_right _ _ _ (infix_app_right _ _ _ hcta1)
      · rw [if_neg hht, clamp_of_le _ hb1]
        exact cta_strip _ hcta1
    · right
      omega

/-- C2 (amended): for every generated-text input and every hashtag outcome,
the final segment of the composed thread contains the call-to-action text,
or else the pre-augmentation last segment was too long for the
call-to-action to fit within the 280 limit (its length plus one separating
space plus the call-to-action length exceeds 280), in which case the
appended call-to-action is truncated by the clamp. -/
theorem parse_cta_or_overflow : ∀ raw ht : Str,
    containsSub CTA ((parse_thread_list raw ht).getLastD []) = true ∨
    MAX_TWEET_LEN < ((padded raw).getLastD []).length + 1 + CTA.length := by
  intro raw ht
  have hlast : (parse_thread_list raw ht).getLastD [] =
      augmentLast ((padded raw).getLastD []) ht := by
    unfold parse_thread_list
    exact List.getLastD_concat _ _ _
  rw [hlast]
  exact augmentLast_cta _ ht (last0_length_le raw)

/-- C2 counterexample: with a 5th line of 270 non-space characters and the
possible hashtag pick of two tags from the third bucket, the final segment
neither contains the call-to-action (it was truncated away by the clamp)
nor has length exactly 280 (it has length 275). -/
theorem parse_cta_counterexample :
    isHashtagPick (("#Phishing #Malware").data) ∧
    ¬ (containsSub CTA
        ((parse_thread_list ((("a\nb\nc\nd\n").data) ++ List.replicate 270 'x')
          (("#Phishing #Malware").data)).getLastD []) = true ∨
       ((parse_thread_list ((("a\nb\nc\nd\n").data) ++ List.replicate 270 'x')
          (("#Phishing #Malware").data)).getLastD []).length = MAX_TWEET_LEN) := by
  constructor
  · exact ⟨[("#Phishing").data, ("#Ransomware").data, ("#Malware").data], by decide,
      [("#Phishing").data, ("#Malware").data], by decide, by decide, Or.inl rfl,
      by decide⟩
  · decide
